import Mathlib

/-!
A shallow embedding of the Klondike solitaire rule engine
(`src/Klondike/game.py`) together with proofs about its move-validation
and pile-state behaviour.

The repository ships only `game.py`; the `card` module it imports
(Card, CardFace, CardSuit, CardDeck, HiddenDeck, ShownDeck, StockDeck,
MAX_CARDS) is not part of the sources.  Definitions for those pieces are
modelled from the specification and are marked `Modelled from the spec:`
in their doc comments.  Everything else is translated directly from
`game.py`.

Conventions:
* a deck is a `List Card` whose *last* element is the top of the pile
  (Python lists append at the end and index the top as `[-1]`);
* Python exceptions are modelled with `Except Err`;
* Python's signed-integer list indexing and bitwise xor are modelled by
  `pyIdx` / `pyGet` / `pyXor`.
-/

/-- Modelled from the spec: the four card suits of `card.CardSuit`, in the
spec's fixed order Spades, Hearts, Diamonds, Clubs (foundation 0 is the
Spades pile in the spec's scenarios). -/
inductive CardSuit
  | spades
  | hearts
  | diamonds
  | clubs
deriving DecidableEq, Repr

/-- Modelled from the spec: suit colours — Spades/Clubs are black,
Hearts/Diamonds are red (`true` stands for black). -/
def CardSuit.color : CardSuit → Bool
  | .spades => true
  | .clubs => true
  | .hearts => false
  | .diamonds => false

/-- Modelled from the spec: `CardSuit.is_same_color`, used by
`TableauPile.verify`; two suits have the same colour iff both are black
or both are red. -/
def CardSuit.is_same_color (a b : CardSuit) : Bool :=
  a.color = b.color

/-- Modelled from the spec: a card is a suit together with a face; the
face is carried as its integer rank 1..13 (`CardFace.value`, Ace = 1,
King = 13). -/
structure Card where
  suit : CardSuit
  face : Nat
deriving DecidableEq, Repr

instance : Inhabited Card := ⟨⟨.spades, 1⟩⟩

/-- The exceptions the engine can raise.  `moveError` is `MoveError`
(game.py line 149, the spec's `IllegalMoveError`); `valueError` is the
`ValueError` raised by `SuitDeck.__put`; `indexError` is Python's
`IndexError` from list indexing; `emptyError` is the spec's `EmptyError`
raised by `CardDeck.take`; `notImplError` is the `NotImplementedError`
raised by `SuitDeck.take` (the spec's `UnsupportedOperationError`). -/
inductive Err
  | moveError (msg : String)
  | valueError (msg : String)
  | indexError
  | emptyError
  | notImplError
deriving DecidableEq, Repr

/-- Python list indexing: for a list of length `len`, an integer index
`i` resolves to position `i` when `0 ≤ i < len` and to position
`len + i` when `-len ≤ i < 0`; anything else raises `IndexError`
(modelled as `none`). -/
def pyIdx (len : Nat) (i : Int) : Option Nat :=
  if 0 ≤ i then
    if i < (len : Int) then some i.toNat else none
  else
    if -i ≤ (len : Int) then some (len - (-i).toNat) else none

/-- Python list element access `l[i]` with signed index semantics. -/
def pyGet {α : Type} (l : List α) (i : Int) : Option α :=
  match pyIdx l.length i with
  | some p => l.get? p
  | none => none

/-- Python's bitwise xor `a ^ b` for a signed `a` and non-negative `b`,
on the two's-complement view of `a`: for `a < 0`,
`a ^ b = -(((-a-1) ^ b) + 1)`. -/
def pyXor (a : Int) (b : Nat) : Int :=
  if 0 ≤ a then ((a.toNat ^^^ b : Nat) : Int)
  else -(((((-a) - 1).toNat ^^^ b : Nat) : Int)) - 1

/-- Modelled from the spec: `card.CardDeck.take(n)` (card.py is absent).
Per §3/§4.1 of the spec it requires `1 ≤ n ≤ length`, removes the top
`n` cards and returns them in their original relative order, and fails
with `EmptyError` otherwise, without mutating the deck.  Returns
`(remaining, taken)`. -/
def deckTake (l : List Card) (n : Int) : Except Err (List Card × List Card) :=
  if 1 ≤ n ∧ n ≤ (l.length : Int) then
    .ok (l.take (l.length - n.toNat), l.drop (l.length - n.toNat))
  else
    .error .emptyError

/-- Modelled from the spec: `card.MAX_CARDS`, the size of a full deck. -/
def MAX_CARDS : Nat := 52

/-- One of the seven tableau piles (game.py lines 8-101): a hidden
face-down deck and a shown face-up deck. -/
structure TableauPile where
  hidden_deck : List Card
  shown_deck : List Card
deriving DecidableEq, Repr

instance : Inhabited TableauPile := ⟨⟨[], []⟩⟩

/-- `TableauPile.take` (game.py lines 18-31): take `n` cards from the
shown deck; afterwards, if the shown deck became empty while hidden
cards remain, reveal the top hidden card by moving it into the shown
deck.  Returns the new pile and the removed cards. -/
def TableauPile.take (t : TableauPile) (n : Int) :
    Except Err (TableauPile × List Card) :=
  match deckTake t.shown_deck n with
  | .error e => .error e
  | .ok (rest, x) =>
    if rest.isEmpty then
      match t.hidden_deck.getLast? with
      | some c => .ok (⟨t.hidden_deck.dropLast, [c]⟩, x)
      | none => .ok (⟨t.hidden_deck, rest⟩, x)
    else
      .ok (⟨t.hidden_deck, rest⟩, x)

/-- `TableauPile.put` (game.py lines 33-40): push cards onto the top of
the shown deck, preserving their order. -/
def TableauPile.put (t : TableauPile) (cs : List Card) : TableauPile :=
  ⟨t.hidden_deck, t.shown_deck ++ cs⟩

/-- `TableauPile.verify` (game.py lines 42-57): if the shown deck is
non-empty, the candidate is legal iff its face is one below the shown
top and its suit has a different colour; if the shown deck is empty,
legal iff the candidate's face value equals King's value 13
(`CardFace.KING == verify_card.face.value`; the numeric reading of
`CardFace` is modelled from the spec's rank table, card.py being
absent). -/
def TableauPile.verify (t : TableauPile) (c : Card) : Bool :=
  match t.shown_deck.getLast? with
  | some top =>
    decide ((top.face : Int) - (c.face : Int) = 1) &&
      !(CardSuit.is_same_color c.suit top.suit)
  | none => decide (13 = c.face)

/-- `TableauPile.deck` (game.py lines 59-64): the revealed portion of
the pile, which is what `Game.place` indexes for the candidate card. -/
def TableauPile.deck (t : TableauPile) : List Card :=
  t.shown_deck

/-- One of the four foundations (game.py lines 104-146): a suit tag plus
the collected ascending run. -/
structure SuitDeck where
  suit : CardSuit
  deck : List Card
deriving DecidableEq, Repr

instance : Inhabited SuitDeck := ⟨⟨.spades, []⟩⟩

/-- `SuitDeck.verify` (game.py lines 130-139): with a non-empty deck the
candidate is legal iff its face is exactly one above the current top and
its suit matches the pile's suit; with an empty deck it is legal iff the
candidate is the Ace *of the pile's suit* (line 139 checks
`verify_card.suit == self._suit` on the empty branch as well). -/
def SuitDeck.verify (d : SuitDeck) (c : Card) : Bool :=
  match d.deck.getLast? with
  | some top =>
    decide ((top.face : Int) - (c.face : Int) = -1) && decide (c.suit = d.suit)
  | none => decide (c.face = 1) && decide (c.suit = d.suit)

/-- `SuitDeck.__put` (game.py lines 114-128).  Note the Python name:
being a double-underscore method it is name-mangled to
`_SuitDeck__put`, so it does NOT override the inherited `CardDeck.put`
and is never invoked by `Game.place` or by any other code in the
repository; it is retained here to state what the guarded write path
would do. -/
def SuitDeck.putPrivate (d : SuitDeck) (c : Card) : Except Err SuitDeck :=
  if d.suit = c.suit then
    if (if d.deck.isEmpty then decide (c.face = 1)
        else decide ((c.face : Int) - ((d.deck.getLastD default).face : Int) = 1)) then
      .ok ⟨d.suit, d.deck ++ [c]⟩
    else
      .error (.valueError "card face is not after deck's last card face")
  else
    .error (.valueError "card does not match deck")

/-- Modelled from the spec: the `put` a `SuitDeck` actually exposes is
the inherited `card.CardDeck.put` (card.py is absent; §4.1 specifies it
appends, preserving order).  `SuitDeck` itself defines only the
name-mangled `__put`, so attribute lookup on `put` resolves to this
unguarded append. -/
def SuitDeck.put (d : SuitDeck) (cs : List Card) : SuitDeck :=
  ⟨d.suit, d.deck ++ cs⟩

/-- `SuitDeck.take` (game.py lines 141-142): always raises
`NotImplementedError`. -/
def SuitDeck.take (_ : SuitDeck) (_ : Int) : Except Err (SuitDeck × List Card) :=
  .error .notImplError

/-- The whole game state (game.py lines 153-169): the stock, the seven
tableau piles, the four foundations and the transient hand buffer. -/
structure Game where
  stock_deck : List Card
  decks : List TableauPile
  foundations : List SuitDeck
  hand_deck : List Card
deriving DecidableEq, Repr

/-- Which list `to_take` refers to after the source branch of
`Game.place` (game.py lines 198, 205-211), together with the possibly
rewritten `take_index`. -/
inductive SrcSel
  | stockS (i : Int)
  | tabS (i : Int)
  | foundS (i : Int)
deriving DecidableEq, Repr

/-- Which list `to_put` refers to after the destination branch of
`Game.place` (game.py lines 199, 213-217), together with the possibly
rewritten `put_index`. -/
inductive DstSel
  | tabD (i : Int)
  | foundD (i : Int)
deriving DecidableEq, Repr

/-- A resolved source pile: an in-range position into the corresponding
container list. -/
inductive SrcPos
  | stockP
  | tabP (p : Nat)
  | foundP (p : Nat)
deriving DecidableEq, Repr

/-- A resolved destination pile: an in-range position into the
corresponding container list. -/
inductive DstPos
  | tabP (p : Nat)
  | foundP (p : Nat)
deriving DecidableEq, Repr

/-- Source branch of `Game.place` (game.py lines 205-211): index `-1`
selects the stock (after checking `take_number > 1`); otherwise an
index with `index ^ 0b10000 < 0b10000` selects the foundations list
with the index xor-ed by 16; any other index selects the tableau
list unchanged. -/
def resolveSrc (take_number take_index : Int) : Except Err SrcSel :=
  if take_index = -1 then
    if take_number > 1 then
      .error (.moveError "can only take 1 card at a time from the main deck")
    else
      .ok (.stockS take_index)
  else if pyXor take_index 16 < 16 then
    .ok (.foundS (pyXor take_index 16))
  else
    .ok (.tabS take_index)

/-- Destination branch of `Game.place` (game.py lines 213-217): index
`-1` is rejected; an index with `index ^ 0b10000 < 0b10000` selects the
foundations list with the index xor-ed by 16; any other index selects
the tableau list unchanged. -/
def resolveDst (put_index : Int) : Except Err DstSel :=
  if put_index = -1 then
    .error (.moveError "cannot place cards into main deck")
  else if pyXor put_index 16 < 16 then
    .ok (.foundD (pyXor put_index 16))
  else
    .ok (.tabD put_index)

/-- Indexing `to_take[take_index]` (game.py line 222/224): the stock
selection is the one-element list `[self.stock_deck]`, the others are
`self.decks` and `self.foundations`; a Python `IndexError` is `none`. -/
def Game.locateSrc (g : Game) : SrcSel → Option SrcPos
  | .stockS i => (pyIdx 1 i).map fun _ => SrcPos.stockP
  | .tabS i => (pyIdx g.decks.length i).map SrcPos.tabP
  | .foundS i => (pyIdx g.foundations.length i).map SrcPos.foundP

/-- Indexing `to_put[put_index]` (game.py line 222/224). -/
def Game.locateDst (g : Game) : DstSel → Option DstPos
  | .tabD i => (pyIdx g.decks.length i).map DstPos.tabP
  | .foundD i => (pyIdx g.foundations.length i).map DstPos.foundP

/-- The `.deck` attribute of the source pile (game.py line 224): the
full stock for the stock, the shown portion for a tableau
(`TableauPile.deck`, lines 59-64), the run for a foundation. -/
def Game.viewAt (g : Game) : SrcPos → List Card
  | .stockP => g.stock_deck
  | .tabP p => (g.decks.getD p default).deck
  | .foundP p => (g.foundations.getD p default).deck

/-- The `verify` call on the resolved destination (game.py line 224). -/
def Game.verifyAtD (g : Game) : DstPos → Card → Bool
  | .tabP p, c => (g.decks.getD p default).verify c
  | .foundP p, c => (g.foundations.getD p default).verify c

/-- The `take` call on the resolved source (game.py line 225),
dispatching on the pile kind: `CardDeck.take` on the stock,
`TableauPile.take` on a tableau, and `SuitDeck.take` (which always
raises `NotImplementedError`) on a foundation. -/
def Game.takeAt (g : Game) (pos : SrcPos) (n : Int) :
    Except Err (Game × List Card) :=
  match pos with
  | .stockP =>
    match deckTake g.stock_deck n with
    | .error e => .error e
    | .ok (rest, x) => .ok ({ g with stock_deck := rest }, x)
  | .tabP p =>
    match TableauPile.take (g.decks.getD p default) n with
    | .error e => .error e
    | .ok (t, x) => .ok ({ g with decks := g.decks.set p t }, x)
  | .foundP p =>
    match SuitDeck.take (g.foundations.getD p default) n with
    | .error e => .error e
    | .ok (_, x) => .ok (g, x)

/-- The `put` call on the resolved destination (game.py line 226):
`TableauPile.put` appends to the shown deck; a foundation's `put` is the
inherited unguarded `CardDeck.put` append (see `SuitDeck.put`). -/
def Game.putAtD (g : Game) (pos : DstPos) (cs : List Card) : Game :=
  match pos with
  | .tabP p =>
    { g with decks := g.decks.set p ((g.decks.getD p default).put cs) }
  | .foundP p =>
    { g with foundations :=
        g.foundations.set p ((g.foundations.getD p default).put cs) }

/-- The destination position is in range for the container list it
points into. -/
def dstValid (g : Game) : DstPos → Prop
  | .tabP p => p < g.decks.length
  | .foundP p => p < g.foundations.length

/-- The validation and address-resolution part of `Game.place`
(game.py lines 201-222): the same-pile check, the two resolution
branches, and the list lookups — the destination lookup is evaluated
before the source lookup, as in the f-string of line 222 and the
expression of line 224. -/
def Game.placeResolve (g : Game) (take_number take_index put_index : Int) :
    Except Err (SrcPos × DstPos) :=
  if take_index = put_index then
    .error (.moveError "cannot take and put to the same deck")
  else
    match resolveSrc take_number take_index with
    | .error e => .error e
    | .ok s =>
      match resolveDst put_index with
      | .error e => .error e
      | .ok d =>
        match g.locateDst d with
        | none => .error .indexError
        | some dpos =>
          match g.locateSrc s with
          | none => .error .indexError
          | some spos => .ok (spos, dpos)

/-- The candidate card `to_take[take_index].deck[-take_number]` passed
to the destination's `verify` (game.py line 224); `none` when the call
fails before the legality check. -/
def Game.placeCandidate (g : Game) (take_number take_index put_index : Int) :
    Option Card :=
  match g.placeResolve take_number take_index put_index with
  | .error _ => none
  | .ok (spos, _) => pyGet (g.viewAt spos) (-take_number)

/-- `Game.place` (game.py lines 197-229).  The result pairs the Python
outcome (`.ok ()` for a normal return, `.error e` for a raised
exception) with the game state when `place` returns or the exception
escapes.  On the success path the transfer runs through the hand
buffer: `hand.put(source.take(n))` then `dest.put(hand.take(MAX_CARDS))`.
The final `hand_deck.take(card.MAX_CARDS)` is modelled from the spec
(card.py is absent): §4.5 step 6 specifies it drains the hand buffer
entirely into the destination (`dest.put(hand.take(ALL))`). -/
def Game.place (g : Game) (take_number take_index put_index : Int) :
    Except Err Unit × Game :=
  match g.placeResolve take_number take_index put_index with
  | .error e => (.error e, g)
  | .ok (spos, dpos) =>
    match pyGet (g.viewAt spos) (-take_number) with
    | none => (.error .indexError, g)
    | some c =>
      if g.verifyAtD dpos c then
        match g.takeAt spos take_number with
        | .error e => (.error e, g)
        | .ok (g1, x) =>
          let cs := g1.hand_deck ++ x
          let g3 := { g1 with hand_deck := [] }
          (.ok (), g3.putAtD dpos cs)
      else
        (.error (.moveError "invalid move"), g)

/-- One round of the dealing loop body (game.py lines 161-162): move `k`
cards one at a time from the top of the stock into a hidden deck. -/
def dealHidden : Nat → List Card → List Card →
    Except Err (List Card × List Card)
  | 0, stock, hid => .ok (stock, hid)
  | k + 1, stock, hid =>
    match deckTake stock 1 with
    | .error e => .error e
    | .ok (rest, taken) => dealHidden k rest (hid ++ taken)

/-- The dealing loop of `Game.__init__` (game.py lines 158-164): for
each requested size, deal that many cards into a fresh hidden deck and
then reveal its top card into the shown deck
(`v.shown_deck.put(v.hidden_deck.take(1))`). -/
def buildDecks : List Nat → List Card →
    Except Err (List TableauPile × List Card)
  | [], stock => .ok ([], stock)
  | k :: rest, stock =>
    match dealHidden k stock [] with
    | .error e => .error e
    | .ok (stock1, hid) =>
      match hid.getLast? with
      | none => .error .emptyError
      | some c =>
        match buildDecks rest stock1 with
        | .error e => .error e
        | .ok (ds, stock2) => .ok (⟨hid.dropLast, [c]⟩ :: ds, stock2)

/-- `Game.__init__` (game.py lines 154-169), parameterised by the
pre-shuffled stock contents (`StockDeck(full=True)`; shuffling policy
is external per the spec).  Tableau `i` receives `i + 1` cards.  The
trailing `move_info()` call is console rendering only and mutates no
container, so it is not modelled. -/
def Game.init (stock0 : List Card) : Except Err Game :=
  match buildDecks [1, 2, 3, 4, 5, 6, 7] stock0 with
  | .error e => .error e
  | .ok (ds, stock1) =>
    .ok { stock_deck := stock1
          decks := ds
          foundations := [⟨.spades, []⟩, ⟨.hearts, []⟩, ⟨.diamonds, []⟩, ⟨.clubs, []⟩]
          hand_deck := [] }

/-- The multiset of cards held by a tableau pile. -/
def tabCards (t : TableauPile) : Multiset Card :=
  (t.hidden_deck : Multiset Card) + (t.shown_deck : Multiset Card)

/-- The multiset of all cards across the stock, the tableau piles, the
foundations and the hand buffer. -/
def Game.totalCards (g : Game) : Multiset Card :=
  (g.stock_deck : Multiset Card) + (g.decks.map tabCards).sum +
    (g.foundations.map fun f => (f.deck : Multiset Card)).sum +
    (g.hand_deck : Multiset Card)

/-- The full 52-card deck, one card per suit/face pair. -/
def fullDeck : List Card :=
  ([CardSuit.spades, .hearts, .diamonds, .clubs].map fun s =>
    (List.range 13).map fun f => Card.mk s (f + 1)).flatten

/-- The states reachable in the engine: a freshly constructed game on a
full pre-shuffled deck, closed under arbitrary `place` calls (whether
they return normally or raise). -/
inductive Reachable : Game → Prop
  | init (stock0 : List Card) (g : Game) :
      stock0.Perm fullDeck → Game.init stock0 = .ok g → Reachable g
  | step (g : Game) (n i j : Int) :
      Reachable g → Reachable (g.place n i j).2

/-- A bare board: seven empty tableau piles, the four empty foundations,
empty stock and hand. -/
def gEmpty : Game :=
  { stock_deck := []
    decks := List.replicate 7 ⟨[], []⟩
    foundations := [⟨.spades, []⟩, ⟨.hearts, []⟩, ⟨.diamonds, []⟩, ⟨.clubs, []⟩]
    hand_deck := [] }

/-- A board whose stock holds the Ace of Hearts at the bottom and the
King of Spades on top. -/
def gAceBottom : Game :=
  { gEmpty with stock_deck := [⟨.hearts, 1⟩, ⟨.spades, 13⟩] }

/-- A board whose stock holds the King of Spades at the bottom and the
Ace of Hearts on top. -/
def gKingBottom : Game :=
  { gEmpty with stock_deck := [⟨.spades, 13⟩, ⟨.hearts, 1⟩] }

/-- A board whose first tableau pile shows the Ace of Clubs. -/
def gClubAce : Game :=
  { gEmpty with decks := ⟨[], [⟨.clubs, 1⟩]⟩ :: List.replicate 6 ⟨[], []⟩ }

/-- The game dealt from the unshuffled full deck. -/
def g52 : Game :=
  match Game.init fullDeck with
  | .ok g => g
  | .error _ => gEmpty

theorem pyIdx_lt {len : Nat} {i : Int} {p : Nat} (h : pyIdx len i = some p) :
    p < len := by
  unfold pyIdx at h
  split at h
  · split at h
    · simp only [Option.some.injEq] at h
      omega
    · exact absurd h (by simp)
  · split at h
    · simp only [Option.some.injEq] at h
      omega
    · exact absurd h (by simp)

theorem pyGet_neg {α : Type} {l : List α} {n : Int} {c : α} (h1 : 1 ≤ n)
    (h : pyGet l (-n) = some c) :
    n.toNat ≤ l.length ∧ l.get? (l.length - n.toNat) = some c := by
  unfold pyGet at h
  split at h
  · rename_i p hp
    unfold pyIdx at hp
    split at hp
    · omega
    · split at hp
      · simp only [Option.some.injEq] at hp
        have hp' : p = l.length - n.toNat := by omega
        subst hp'
        exact ⟨by omega, h⟩
      · exact absurd hp (by simp)
  · exact absurd h (by simp)

theorem deckTake_eq {l rest x : List Card} {n : Int}
    (h : deckTake l n = .ok (rest, x)) :
    rest ++ x = l ∧ 1 ≤ n ∧ n.toNat ≤ l.length ∧
      rest = l.take (l.length - n.toNat) ∧ x = l.drop (l.length - n.toNat) := by
  unfold deckTake at h
  split at h
  · rename_i hc
    simp only [Except.ok.injEq, Prod.mk.injEq] at h
    obtain ⟨h1, h2⟩ := h
    exact ⟨by rw [← h1, ← h2]; exact List.take_append_drop _ _,
      hc.1, by omega, h1.symm, h2.symm⟩
  · exact absurd h (by simp)

theorem xor16_small (t : Nat) (h : t < 16) : t ^^^ 16 = t + 16 := by
  interval_cases t <;> rfl

theorem xor16_mid (t : Nat) (h1 : 16 ≤ t) (h2 : t < 32) : t ^^^ 16 = t - 16 := by
  interval_cases t <;> rfl

theorem pyXor_neg {a : Int} (h : a < 0) : pyXor a 16 < 0 := by
  unfold pyXor
  rw [if_neg (by omega)]
  have := Int.ofNat_nonneg ((-a - 1).toNat ^^^ 16)
  omega

theorem pyXor_nonneg {a : Int} (h : 0 ≤ a) :
    pyXor a 16 = ((a.toNat ^^^ 16 : Nat) : Int) := by
  unfold pyXor
  rw [if_pos h]

theorem getD_valid {α : Type} [Inhabited α] (l : List α) (p : Nat)
    (h : p < l.length) : l.getD p default = l.get ⟨p, h⟩ := by
  simp [List.getD_eq_getElem?_getD, List.getElem?_eq_getElem h, List.get_eq_getElem]

theorem sum_map_set {α β : Type} [AddCommMonoid β] (f : α → β) :
    ∀ (l : List α) (p : Nat) (x : α) (hp : p < l.length),
      ((l.set p x).map f).sum + f (l.get ⟨p, hp⟩) = (l.map f).sum + f x := by
  intro l
  induction l with
  | nil => intro p x hp; simp at hp
  | cons a tl ih =>
    intro p x hp
    cases p with
    | zero =>
      simp only [List.set, List.map, List.sum_cons, List.get]
      abel
    | succ q =>
      have hq : q < tl.length := by simpa using Nat.lt_of_succ_lt_succ hp
      simp only [List.set, List.map, List.sum_cons, List.get]
      rw [add_assoc, ih q x hq, ← add_assoc]

theorem coeList_append (l1 l2 : List Card) :
    ((l1 ++ l2 : List Card) : Multiset Card) = ↑l1 + ↑l2 := by
  rw [← Multiset.coe_add]

theorem deckTake_nil (n : Int) : deckTake [] n = .error .emptyError := by
  unfold deckTake
  rw [if_neg]
  intro hc
  simp at hc
  omega

theorem tabCards_put (t : TableauPile) (cs : List Card) :
    tabCards (t.put cs) = tabCards t + ↑cs := by
  simp only [tabCards, TableauPile.put, coeList_append]
  abel


theorem tableau_take_cards {t t' : TableauPile} {n : Int} {x : List Card}
    (h : t.take n = .ok (t', x)) : tabCards t' + ↑x = tabCards t := by
  unfold TableauPile.take at h
  split at h
  · exact absurd h (by simp)
  · rename_i rest x0 heq
    obtain ⟨happ, -, -, -, -⟩ := deckTake_eq heq
    split at h
    · rename_i hrest
      have hrest' : rest = [] := by simpa using hrest
      split at h
      · rename_i c hc
        simp only [Except.ok.injEq, Prod.mk.injEq] at h
        obtain ⟨ht', hx⟩ := h
        subst ht' hx
        have hhid : t.hidden_deck.dropLast ++ [c] = t.hidden_deck :=
          List.dropLast_append_getLast? c hc
        have hshown : x0 = t.shown_deck := by
          rw [hrest'] at happ; simpa using happ
        simp only [tabCards]
        conv_rhs => rw [← hhid, ← hshown]
        rw [coeList_append]
      · simp only [Except.ok.injEq, Prod.mk.injEq] at h
        obtain ⟨ht', hx⟩ := h
        subst ht' hx
        simp only [tabCards]
        conv_rhs => rw [← happ]
        rw [coeList_append, add_assoc]
    · simp only [Except.ok.injEq, Prod.mk.injEq] at h
      obtain ⟨ht', hx⟩ := h
      subst ht' hx
      simp only [tabCards]
      conv_rhs => rw [← happ]
      rw [coeList_append, add_assoc]

theorem takeAt_spec {g g1 : Game} {pos : SrcPos} {n : Int} {x : List Card}
    (h : g.takeAt pos n = .ok (g1, x)) :
    g1.totalCards + ↑x = g.totalCards ∧
      g1.decks.length = g.decks.length ∧
      g1.foundations.length = g.foundations.length ∧
      g1.hand_deck = g.hand_deck := by
  cases pos with
  | stockP =>
    simp only [Game.takeAt] at h
    split at h
    · exact absurd h (by simp)
    · rename_i rest x0 heq
      simp only [Except.ok.injEq, Prod.mk.injEq] at h
      obtain ⟨hg, hx⟩ := h
      subst hg hx
      obtain ⟨happ, -, -, -, -⟩ := deckTake_eq heq
      refine ⟨?_, rfl, rfl, rfl⟩
      simp only [Game.totalCards]
      conv_rhs => rw [← happ]
      rw [coeList_append]
      abel
  | tabP p =>
    simp only [Game.takeAt] at h
    split at h
    · exact absurd h (by simp)
    · rename_i t' x0 heq
      by_cases hp : p < g.decks.length
      · simp only [Except.ok.injEq, Prod.mk.injEq] at h
        obtain ⟨hg, hx⟩ := h
        subst hg hx
        have hc := tableau_take_cards heq
        rw [getD_valid _ _ hp] at hc
        refine ⟨?_, by simp, rfl, rfl⟩
        simp only [Game.totalCards]
        have hs := sum_map_set tabCards g.decks p t' hp
        have h3 : (List.map tabCards (g.decks.set p t')).sum + ↑x0 +
            tabCards t' = (List.map tabCards g.decks).sum + tabCards t' := by
          calc (List.map tabCards (g.decks.set p t')).sum + ↑x0 + tabCards t'
              = (List.map tabCards (g.decks.set p t')).sum +
                  (tabCards t' + ↑x0) := by abel
            _ = (List.map tabCards (g.decks.set p t')).sum +
                  tabCards (g.decks.get ⟨p, hp⟩) := by rw [hc]
            _ = (List.map tabCards g.decks).sum + tabCards t' := hs
        have key := add_right_cancel h3
        conv_rhs => rw [← key]
        abel
      · rw [List.getD_eq_default _ _ (by omega)] at heq
        have hd : (default : TableauPile) = ⟨[], []⟩ := rfl
        rw [hd] at heq
        unfold TableauPile.take at heq
        rw [deckTake_nil] at heq
        exact absurd heq (by simp)
  | foundP p =>
    simp only [Game.takeAt] at h
    simp [SuitDeck.take] at h

theorem putAtD_hand (g : Game) (pos : DstPos) (cs : List Card) :
    (g.putAtD pos cs).hand_deck = g.hand_deck := by
  cases pos <;> rfl

theorem putAtD_totalCards (g : Game) (cs : List Card) (pos : DstPos)
    (hv : dstValid g pos) :
    (g.putAtD pos cs).totalCards = g.totalCards + ↑cs := by
  cases pos with
  | tabP p =>
    simp only [dstValid] at hv
    simp only [Game.putAtD, Game.totalCards]
    rw [getD_valid _ _ hv]
    have hs := sum_map_set tabCards g.decks p ((g.decks.get ⟨p, hv⟩).put cs) hv
    rw [tabCards_put] at hs
    have h3 : (List.map tabCards
        (g.decks.set p ((g.decks.get ⟨p, hv⟩).put cs))).sum +
        tabCards (g.decks.get ⟨p, hv⟩) =
        ((List.map tabCards g.decks).sum + ↑cs) +
          tabCards (g.decks.get ⟨p, hv⟩) := by
      calc (List.map tabCards
          (g.decks.set p ((g.decks.get ⟨p, hv⟩).put cs))).sum +
          tabCards (g.decks.get ⟨p, hv⟩)
          = (List.map tabCards g.decks).sum +
              (tabCards (g.decks.get ⟨p, hv⟩) + ↑cs) := hs
        _ = ((List.map tabCards g.decks).sum + ↑cs) +
              tabCards (g.decks.get ⟨p, hv⟩) := by abel
    have key := add_right_cancel h3
    rw [key]
    abel
  | foundP p =>
    simp only [dstValid] at hv
    simp only [Game.putAtD, Game.totalCards]
    rw [getD_valid _ _ hv]
    have hs := sum_map_set (fun f : SuitDeck => (f.deck : Multiset Card))
      g.foundations p ((g.foundations.get ⟨p, hv⟩).put cs) hv
    simp only [SuitDeck.put, coeList_append] at hs
    have h3 : (List.map (fun f : SuitDeck => (f.deck : Multiset Card))
        (g.foundations.set p ((g.foundations.get ⟨p, hv⟩).put cs))).sum +
        ((g.foundations.get ⟨p, hv⟩).deck : Multiset Card) =
        ((List.map (fun f : SuitDeck => (f.deck : Multiset Card))
            g.foundations).sum + ↑cs) +
          ((g.foundations.get ⟨p, hv⟩).deck : Multiset Card) := by
      calc (List.map (fun f : SuitDeck => (f.deck : Multiset Card))
          (g.foundations.set p ((g.foundations.get ⟨p, hv⟩).put cs))).sum +
          ((g.foundations.get ⟨p, hv⟩).deck : Multiset Card)
          = (List.map (fun f : SuitDeck => (f.deck : Multiset Card))
              g.foundations).sum +
              (((g.foundations.get ⟨p, hv⟩).deck : Multiset Card) + ↑cs) := hs
        _ = ((List.map (fun f : SuitDeck => (f.deck : Multiset Card))
              g.foundations).sum + ↑cs) +
              ((g.foundations.get ⟨p, hv⟩).deck : Multiset Card) := by abel
    have key := add_right_cancel h3
    rw [key]
    abel

theorem locateDst_valid {g : Game} {d : DstSel} {dpos : DstPos}
    (h : g.locateDst d = some dpos) : dstValid g dpos := by
  cases d with
  | tabD i =>
    simp only [Game.locateDst] at h
    cases hx : pyIdx g.decks.length i with
    | none => rw [hx] at h; simp at h
    | some p =>
      rw [hx] at h
      simp only [Option.map_some', Option.some.injEq] at h
      subst h
      exact pyIdx_lt hx
  | foundD i =>
    simp only [Game.locateDst] at h
    cases hx : pyIdx g.foundations.length i with
    | none => rw [hx] at h; simp at h
    | some p =>
      rw [hx] at h
      simp only [Option.map_some', Option.some.injEq] at h
      subst h
      exact pyIdx_lt hx

theorem placeResolve_dstValid {g : Game} {n i j : Int} {spos : SrcPos}
    {dpos : DstPos} (h : g.placeResolve n i j = .ok (spos, dpos)) :
    dstValid g dpos := by
  unfold Game.placeResolve at h
  split at h
  · exact absurd h (by simp)
  · split at h
    · exact absurd h (by simp)
    · split at h
      · exact absurd h (by simp)
      · split at h
        · exact absurd h (by simp)
        · rename_i dpos0 hloc
          split at h
          · exact absurd h (by simp)
          · simp only [Except.ok.injEq, Prod.mk.injEq] at h
            obtain ⟨-, hd⟩ := h
            subst hd
            exact locateDst_valid hloc

theorem place_cases (g : Game) (n i j : Int) :
    (g.place n i j).2 = g ∨ (g.place n i j).1 = Except.ok () := by
  unfold Game.place
  split
  · exact Or.inl rfl
  · split
    · exact Or.inl rfl
    · split
      · split
        · exact Or.inl rfl
        · exact Or.inr rfl
      · exact Or.inl rfl

theorem place_error_state {g : Game} {n i j : Int} {e : Err}
    (h : (g.place n i j).1 = .error e) : (g.place n i j).2 = g := by
  rcases place_cases g n i j with h2 | h2
  · exact h2
  · rw [h2] at h
    exact absurd h (by simp)

theorem place_totalCards (g : Game) (n i j : Int) :
    ((g.place n i j).2).totalCards = g.totalCards := by
  unfold Game.place
  split
  · rfl
  · rename_i spos dpos hres
    split
    · rfl
    · rename_i c hc
      split
      · split
        · rfl
        · rename_i g1 x ht
          obtain ⟨hcons, hdl, hfl, hh⟩ := takeAt_spec ht
          have hv := placeResolve_dstValid hres
          have hv3 : dstValid { g1 with hand_deck := ([] : List Card) } dpos := by
            cases dpos <;> simp_all [dstValid]
          dsimp only
          rw [putAtD_totalCards _ _ _ hv3]
          simp only [Game.totalCards, coeList_append, Multiset.coe_nil] at hcons ⊢
          conv_rhs => rw [← hcons]
          abel
      · rfl

theorem dealHidden_cards :
    ∀ (k : Nat) (stock hid stock1 hid1 : List Card),
      dealHidden k stock hid = .ok (stock1, hid1) →
      (stock1 : Multiset Card) + ↑hid1 = ↑stock + ↑hid := by
  intro k
  induction k with
  | zero =>
    intro stock hid s1 h1 h
    simp only [dealHidden, Except.ok.injEq, Prod.mk.injEq] at h
    obtain ⟨ha, hb⟩ := h
    subst ha hb
    rfl
  | succ m ih =>
    intro stock hid s1 h1 h
    simp only [dealHidden] at h
    split at h
    · exact absurd h (by simp)
    · rename_i rest taken heq
      have hrec := ih rest (hid ++ taken) s1 h1 h
      obtain ⟨happ, -, -, -, -⟩ := deckTake_eq heq
      rw [coeList_append] at hrec
      rw [hrec]
      conv_rhs => rw [← happ]
      rw [coeList_append]
      abel

theorem buildDecks_cards :
    ∀ (sizes : List Nat) (stock : List Card) (ds : List TableauPile)
      (stock1 : List Card),
      buildDecks sizes stock = .ok (ds, stock1) →
      (ds.map tabCards).sum + ↑stock1 = (stock : Multiset Card) := by
  intro sizes
  induction sizes with
  | nil =>
    intro stock ds s1 h
    simp only [buildDecks, Except.ok.injEq, Prod.mk.injEq] at h
    obtain ⟨ha, hb⟩ := h
    subst ha hb
    simp
  | cons k rest ih =>
    intro stock ds s1 h
    simp only [buildDecks] at h
    split at h
    · exact absurd h (by simp)
    · rename_i stock1' hid heq
      split at h
      · exact absurd h (by simp)
      · rename_i c hc
        split at h
        · exact absurd h (by simp)
        · rename_i ds0 stock2 heq2
          simp only [Except.ok.injEq, Prod.mk.injEq] at h
          obtain ⟨ha, hb⟩ := h
          subst ha hb
          have hrec := ih stock1' ds0 stock2 heq2
          have hdeal := dealHidden_cards k stock [] stock1' hid heq
          have hhid : hid.dropLast ++ [c] = hid :=
            List.dropLast_append_getLast? c hc
          simp only [List.map, List.sum_cons, tabCards]
          calc ((hid.dropLast : Multiset Card) + ↑[c] +
                (List.map tabCards ds0).sum) + ↑stock2
              = ((hid.dropLast ++ [c] : List Card) : Multiset Card) +
                ((List.map tabCards ds0).sum + ↑stock2) := by
                rw [coeList_append]; abel
            _ = (hid : Multiset Card) + ↑stock1' := by rw [hhid, hrec]
            _ = (stock : Multiset Card) := by
                have : (stock1' : Multiset Card) + ↑hid = ↑stock := by
                  simpa using hdeal
                rw [← this]; abel

theorem init_totalCards {stock0 : List Card} {g : Game}
    (h : Game.init stock0 = .ok g) : g.totalCards = ↑stock0 := by
  unfold Game.init at h
  split at h
  · exact absurd h (by simp)
  · rename_i ds stock1 heq
    simp only [Except.ok.injEq] at h
    subst h
    have hb := buildDecks_cards _ _ _ _ heq
    simp only [Game.totalCards]
    simp only [List.map, List.sum_cons, List.sum_nil]
    rw [← hb]
    simp only [Multiset.coe_nil]
    abel

theorem reachable_totalCards {g : Game} (h : Reachable g) :
    g.totalCards = (fullDeck : Multiset Card) := by
  induction h with
  | init stock0 g hperm hinit =>
    rw [init_totalCards hinit]
    exact Multiset.coe_eq_coe.mpr hperm
  | step g n i j hr ih =>
    rw [place_totalCards]
    exact ih

theorem g52_init : Game.init fullDeck = .ok g52 := by rfl

/-- C1: for every reachable game state and every `Game.place` call
(whether it returns normally or raises), the multiset of the 52 cards
partitioned across the stock, the seven tableau piles (hidden plus
shown), the four foundations and the hand buffer is preserved — and for
reachable states it is exactly the full deck, so each card sits in
exactly one container before and after the call. -/
theorem place_conserves_cards (g : Game) (h : Reachable g) (n i j : Int) :
    ((g.place n i j).2).totalCards = g.totalCards ∧
      g.totalCards = (fullDeck : Multiset Card) :=
  ⟨place_totalCards g n i j, reachable_totalCards h⟩

theorem place_conserves_cards_witness :
    ((g52.place 1 (-1) 0).2).totalCards = g52.totalCards ∧
      g52.totalCards = (fullDeck : Multiset Card) :=
  place_conserves_cards g52
    (Reachable.init fullDeck g52 (List.Perm.refl _) g52_init) 1 (-1) 0

/-- C2: every `Game.place` call that fails with `MoveError` (the spec's
`IllegalMoveError`: same-pile move, destination is stock, wrong stock
take-count, or the destination's `verify` rejecting the candidate)
leaves every container exactly as it was before the call. -/
theorem place_moveError_keeps_state (g : Game) (n i j : Int) (m : String)
    (h : (g.place n i j).1 = .error (.moveError m)) :
    (g.place n i j).2 = g :=
  place_error_state h

theorem place_moveError_keeps_state_witness : (gEmpty.place 1 0 0).2 = gEmpty :=
  place_moveError_keeps_state gEmpty 1 0 0
    "cannot take and put to the same deck" (by rfl)

/-- C9: the hand buffer is empty at the start and at the end of every
`Game.place` call, whether the call succeeds or fails: if the hand is
empty before the call it is empty after it, the success path having
drained everything it put into the hand into the destination. -/
theorem place_hand_empty (g : Game) (n i j : Int) (h : g.hand_deck = []) :
    ((g.place n i j).2).hand_deck = [] := by
  unfold Game.place
  split
  · exact h
  · split
    · exact h
    · split
      · split
        · exact h
        · dsimp only
          rw [putAtD_hand]
      · exact h

theorem place_hand_empty_witness :
    ((gKingBottom.place 1 (-1) 0).2).hand_deck = [] :=
  place_hand_empty gKingBottom 1 (-1) 0 rfl

/-- C4: on a tableau pile whose shown deck is empty, `verify` accepts a
candidate exactly when its face is King (rank 13). -/
theorem tableau_verify_empty_iff_king (t : TableauPile) (c : Card)
    (h : t.shown_deck = []) : t.verify c = true ↔ c.face = 13 := by
  unfold TableauPile.verify
  rw [h]
  simp [eq_comm]

theorem tableau_verify_empty_iff_king_witness :
    (TableauPile.mk [] []).verify (Card.mk .spades 13) = true :=
  (tableau_verify_empty_iff_king ⟨[], []⟩ ⟨.spades, 13⟩ rfl).mpr rfl

/-- C5 counterexample: on an empty Spades foundation, `verify` rejects
the Ace of Hearts, although the claim (deck empty AND face is Ace, with
no suit condition) would accept it — the empty branch of
`SuitDeck.verify` also requires the candidate's suit to match. -/
theorem suitDeck_verify_empty_needs_suit :
    SuitDeck.verify ⟨.spades, []⟩ ⟨.hearts, 1⟩ = false ∧
      (SuitDeck.mk .spades []).deck = [] ∧ (Card.mk .hearts 1).face = 1 :=
  ⟨rfl, rfl, rfl⟩

/-- C5 (amended): `SuitDeck.verify` accepts a candidate iff (the deck is
empty AND the candidate is the Ace of the pile's own suit) OR (the deck
is non-empty AND the suit matches AND the candidate's rank is exactly
one above the top); an Ace is legal on an empty foundation only when its
suit matches that foundation. -/
theorem suitDeck_verify_rule (d : SuitDeck) (c : Card) :
    d.verify c = true ↔
      ((d.deck = [] ∧ c.face = 1 ∧ c.suit = d.suit) ∨
        (∃ t, d.deck.getLast? = some t ∧ c.suit = d.suit ∧
          (c.face : Int) - (t.face : Int) = 1)) := by
  unfold SuitDeck.verify
  cases hL : d.deck.getLast? with
  | none =>
    have hnil : d.deck = [] := by simpa using hL
    simp [hnil]
  | some t =>
    have hne : d.deck ≠ [] := by
      intro hh
      rw [hh] at hL
      simp at hL
    simp only [hL, Bool.and_eq_true, decide_eq_true_eq, Option.some.injEq]
    constructor
    · rintro ⟨h1, h2⟩
      exact Or.inr ⟨t, rfl, h2, by omega⟩
    · rintro (⟨h1, -, -⟩ | ⟨t', ht', h2, h3⟩)
      · exact absurd h1 hne
      · cases ht'
        exact ⟨by omega, h2⟩

/-- C6: the `put` actually reachable on a foundation is the inherited
unguarded append, because the guarded write path is the name-mangled
`__put` that never overrides it: putting the 2 of Hearts on an empty
Spades foundation mutates the deck and raises nothing, while the
intended guard `SuitDeck.__put` would have raised `ValueError` (the
spec's `InvalidCardError`) on the same input, which `verify` also
rejects. -/
theorem suitDeck_put_unguarded :
    (SuitDeck.put ⟨.spades, []⟩ [⟨.hearts, 2⟩]).deck = [⟨.hearts, 2⟩] ∧
      SuitDeck.putPrivate ⟨.spades, []⟩ ⟨.hearts, 2⟩ =
        .error (.valueError "card does not match deck") ∧
      SuitDeck.verify ⟨.spades, []⟩ ⟨.hearts, 2⟩ = false :=
  ⟨rfl, rfl, rfl⟩

/-- C8: after every successful `TableauPile.take`, if the removal
emptied the shown deck and hidden cards remain, exactly one card has
moved from the top of hidden into shown (so shown has exactly one card);
the reveal is a no-op when hidden is empty too, and the pile never ends
a successful take with an empty shown deck while hidden is non-empty. -/
theorem tableau_take_reveal (t t' : TableauPile) (n : Int) (x : List Card)
    (h : t.take n = .ok (t', x)) :
    (t'.shown_deck = [] → t'.hidden_deck = []) ∧
      ((t.shown_deck.length : Int) = n ∧ t.hidden_deck ≠ [] →
        t'.shown_deck.length = 1 ∧
        t'.hidden_deck = t.hidden_deck.dropLast ∧
        t'.shown_deck = t.hidden_deck.getLast?.toList) ∧
      ((t.shown_deck.length : Int) = n ∧ t.hidden_deck = [] →
        t'.shown_deck = [] ∧ t'.hidden_deck = []) := by
  unfold TableauPile.take at h
  split at h
  · exact absurd h (by simp)
  · rename_i rest x0 heq
    obtain ⟨happ, hn1, hn2, hrest, hx⟩ := deckTake_eq heq
    split at h
    · rename_i hre
      have hre' : rest = [] := by simpa using hre
      split at h
      · rename_i c hc
        simp only [Except.ok.injEq, Prod.mk.injEq] at h
        obtain ⟨ht', hxx⟩ := h
        subst ht' hxx
        refine ⟨?_, ?_, ?_⟩
        · intro hs
          simp at hs
        · rintro ⟨-, -⟩
          refine ⟨rfl, rfl, ?_⟩
          rw [hc]
          rfl
        · rintro ⟨-, hhid⟩
          rw [hhid] at hc
          simp at hc
      · rename_i hc
        have hhidnil : t.hidden_deck = [] := by simpa using hc
        simp only [Except.ok.injEq, Prod.mk.injEq] at h
        obtain ⟨ht', hxx⟩ := h
        subst ht' hxx
        refine ⟨?_, ?_, ?_⟩
        · intro
          exact hhidnil
        · rintro ⟨-, hne⟩
          exact absurd hhidnil hne
        · intro
          exact ⟨hre', hhidnil⟩
    · rename_i hre
      have hrne : rest ≠ [] := by simpa using hre
      simp only [Except.ok.injEq, Prod.mk.injEq] at h
      obtain ⟨ht', hxx⟩ := h
      subst ht' hxx
      refine ⟨?_, ?_, ?_⟩
      · intro hs
        exact absurd hs hrne
      · rintro ⟨hlen, -⟩
        exfalso
        apply hrne
        rw [hrest]
        have hzero : t.shown_deck.length - n.toNat = 0 := by omega
        rw [hzero]
        rfl
      · rintro ⟨hlen, -⟩
        exfalso
        apply hrne
        rw [hrest]
        have hzero : t.shown_deck.length - n.toNat = 0 := by omega
        rw [hzero]
        rfl

theorem tableau_take_reveal_witness :
    (TableauPile.mk [] [⟨.spades, 5⟩]).shown_deck.length = 1 :=
  ((tableau_take_reveal ⟨[⟨.spades, 5⟩], [⟨.hearts, 3⟩]⟩ ⟨[], [⟨.spades, 5⟩]⟩ 1
      [⟨.hearts, 3⟩] (by rfl)).2.1 ⟨by rfl, by simp⟩).1

/-- C3 counterexample: with `count = 0` the legality check is reached
and receives `stock[0]` (the bottom card, here the Ace of Hearts),
while the card at position `sourceLength − count = 2` does not exist;
the claim's description of the candidate therefore fails for
`count = 0` (Python evaluates `deck[-0]` as `deck[0]`). -/
theorem place_candidate_count_zero :
    gAceBottom.placeCandidate 0 (-1) 0 = some ⟨.hearts, 1⟩ ∧
      gAceBottom.stock_deck.length - (0 : Int).toNat = 2 ∧
      gAceBottom.stock_deck.get? 2 = none ∧
      (gAceBottom.place 0 (-1) 0).1 = .error (.moveError "invalid move") :=
  ⟨rfl, rfl, rfl, rfl⟩

/-- C3 (amended): in every `Game.place` call with `count ≥ 1` that
reaches the legality check, the candidate passed to the destination's
`verify` is the card at position `sourceLength − count` of the source's
deck view, and for a tableau source equally the card at position
`|pile| − count` of the whole pile (hidden followed by shown). -/
theorem place_candidate_position (g : Game) (n i j : Int) (c : Card)
    (h1 : 1 ≤ n) (h : g.placeCandidate n i j = some c) :
    ∃ spos dpos, g.placeResolve n i j = .ok (spos, dpos) ∧
      n.toNat ≤ (g.viewAt spos).length ∧
      (g.viewAt spos).get? ((g.viewAt spos).length - n.toNat) = some c ∧
      (∀ p, spos = SrcPos.tabP p →
        ((g.decks.getD p default).hidden_deck ++
            (g.decks.getD p default).shown_deck).get?
          ((g.decks.getD p default).hidden_deck.length +
            (g.decks.getD p default).shown_deck.length - n.toNat) = some c) := by
  unfold Game.placeCandidate at h
  split at h
  · exact absurd h (by simp)
  · rename_i spos dpos hres
    obtain ⟨hle, hget⟩ := pyGet_neg h1 h
    refine ⟨spos, dpos, hres, hle, hget, ?_⟩
    intro p hp
    subst hp
    simp only [Game.viewAt, TableauPile.deck] at hle hget
    rw [List.get?_append_right (by omega)]
    have harith : (g.decks.getD p default).hidden_deck.length +
        (g.decks.getD p default).shown_deck.length - n.toNat -
        (g.decks.getD p default).hidden_deck.length =
        (g.decks.getD p default).shown_deck.length - n.toNat := by omega
    rw [harith]
    exact hget

theorem place_candidate_position_witness :
    ∃ spos dpos, gKingBottom.placeResolve 1 (-1) 0 = .ok (spos, dpos) ∧
      (1 : Int).toNat ≤ (gKingBottom.viewAt spos).length ∧
      (gKingBottom.viewAt spos).get?
        ((gKingBottom.viewAt spos).length - (1 : Int).toNat) =
        some ⟨.hearts, 1⟩ ∧
      (∀ p, spos = SrcPos.tabP p →
        ((gKingBottom.decks.getD p default).hidden_deck ++
            (gKingBottom.decks.getD p default).shown_deck).get?
          ((gKingBottom.decks.getD p default).hidden_deck.length +
            (gKingBottom.decks.getD p default).shown_deck.length -
              (1 : Int).toNat) = some ⟨.hearts, 1⟩) :=
  place_candidate_position gKingBottom 1 (-1) 0 ⟨.hearts, 1⟩ (by norm_num)
    (by rfl)

/-- C7 counterexample: `place(0, -1, 0)` is a stock draw with
`count ≠ 1`, yet it does not fail with `MoveError`: the guard only
rejects `count > 1`, so the call passes validation (the bottom King of
Spades satisfies the empty tableau's `verify`) and then fails inside
`take` with `EmptyError`. -/
theorem place_stock_take_zero :
    (gKingBottom.place 0 (-1) 0).1 = .error .emptyError ∧ (0 : Int) ≠ 1 :=
  ⟨rfl, by norm_num⟩

/-- C7 (amended): a stock draw with `count > 1` fails with `MoveError`
("can only take 1 card at a time from the main deck") and leaves the
state unchanged; counts of 0 or less pass this guard and fail later for
other reasons. -/
theorem place_stock_multi_take_rejected (g : Game) (n j : Int)
    (h1 : 1 < n) (h2 : j ≠ -1) :
    (g.place n (-1) j).1 =
      .error (.moveError "can only take 1 card at a time from the main deck") ∧
      (g.place n (-1) j).2 = g := by
  have hres : g.placeResolve n (-1) j =
      .error (.moveError "can only take 1 card at a time from the main deck") := by
    unfold Game.placeResolve
    rw [if_neg (by omega)]
    unfold resolveSrc
    rw [if_pos rfl, if_pos h1]
  refine ⟨?_, ?_⟩ <;> (unfold Game.place; rw [hres])

theorem place_stock_multi_take_rejected_witness :
    (gEmpty.place 2 (-1) 0).1 =
      .error (.moveError "can only take 1 card at a time from the main deck") ∧
      (gEmpty.place 2 (-1) 0).2 = gEmpty :=
  place_stock_multi_take_rejected gEmpty 2 0 (by norm_num) (by norm_num)

/-- C10: destination indices outside the documented encodings never
fail with `MoveError` at address resolution: with a 7-tableau,
4-foundation board, destinations 7..15 and 20..31 are routed to the
tableau or foundation list and fail with Python's `IndexError`; every
destination index ≤ -2 passes the `xor 16` foundation test (the xor of
a negative number stays negative) and resolves through negative list
indexing — for example destination -17 xors to -1 and silently targets
the last foundation. -/
theorem place_addressing_gaps :
    (∀ (g : Game) (n i j : Int), g.decks.length = 7 →
      g.foundations.length = 4 → i ≠ j → (i = -1 → ¬ 1 < n) →
      ((7 ≤ j ∧ j ≤ 15) ∨ (20 ≤ j ∧ j ≤ 31)) →
      (g.place n i j).1 = .error .indexError) ∧
    (∀ j : Int, j ≤ -2 → pyXor j 16 < 16 ∧
      resolveDst j = .ok (.foundD (pyXor j 16))) ∧
    ((gClubAce.place 1 0 (-17)).1 = .ok () ∧
      ((gClubAce.place 1 0 (-17)).2).foundations.getLast? =
        some ⟨.clubs, [⟨.clubs, 1⟩]⟩) := by
  refine ⟨?_, ?_, rfl, rfl⟩
  · intro g n i j hd hf hij hstock hj
    have hres : g.placeResolve n i j = .error .indexError := by
      unfold Game.placeResolve
      rw [if_neg hij]
      obtain ⟨s, hs⟩ : ∃ s, resolveSrc n i = .ok s := by
        unfold resolveSrc
        by_cases hi : i = -1
        · rw [if_pos hi, if_neg (hstock hi)]
          exact ⟨_, rfl⟩
        · rw [if_neg hi]
          by_cases hx : pyXor i 16 < 16
          · rw [if_pos hx]
            exact ⟨_, rfl⟩
          · rw [if_neg hx]
            exact ⟨_, rfl⟩
      rcases hj with ⟨hj1, hj2⟩ | ⟨hj1, hj2⟩
      · have hxor : pyXor j 16 = ((j.toNat ^^^ 16 : Nat) : Int) :=
          pyXor_nonneg (by omega)
        have hx16 : j.toNat ^^^ 16 = j.toNat + 16 := xor16_small _ (by omega)
        have hge : ¬ pyXor j 16 < 16 := by
          rw [hxor, hx16]
          push_cast
          omega
        have hdst : resolveDst j = .ok (.tabD j) := by
          unfold resolveDst
          rw [if_neg (by omega), if_neg hge]
        have hloc : g.locateDst (.tabD j) = none := by
          simp only [Game.locateDst]
          have hnone : pyIdx g.decks.length j = none := by
            unfold pyIdx
            rw [if_pos (by omega), if_neg (by rw [hd]; push_cast; omega)]
          rw [hnone]
          rfl
        simp only [hs, hdst, hloc]
      · have hxor : pyXor j 16 = ((j.toNat ^^^ 16 : Nat) : Int) :=
          pyXor_nonneg (by omega)
        have hx16 : j.toNat ^^^ 16 = j.toNat - 16 := xor16_mid _ (by omega) (by omega)
        have hlt : pyXor j 16 < 16 := by
          rw [hxor, hx16]
          have hub : j.toNat ≤ 31 := by omega
          omega
        have hdst : resolveDst j = .ok (.foundD (pyXor j 16)) := by
          unfold resolveDst
          rw [if_neg (by omega), if_pos hlt]
        have hloc : g.locateDst (.foundD (pyXor j 16)) = none := by
          simp only [Game.locateDst]
          have hnone : pyIdx g.foundations.length (pyXor j 16) = none := by
            unfold pyIdx
            rw [if_pos (by rw [hxor]; omega)]
            rw [if_neg]
            rw [hxor, hx16, hf]
            push_cast
            omega
          rw [hnone]
          rfl
        simp only [hs, hdst, hloc]
    unfold Game.place
    rw [hres]
  · intro j hjle
    have hneg := pyXor_neg (a := j) (by omega)
    refine ⟨by omega, ?_⟩
    unfold resolveDst
    rw [if_neg (by omega), if_pos (by omega)]

theorem place_addressing_gaps_witness :
    (gEmpty.place 1 0 7).1 = .error .indexError :=
  place_addressing_gaps.1 gEmpty 1 0 7 rfl rfl (by omega) (by omega) (by omega)
